import Mathlib

/-!
Shallow embedding of `instrumentino/variables/__init__.py`.

Python floats are modelled as rationals (`ℚ`), Python ints as `ℤ`, and
Python strings as `List Char`.  Operations that may raise a Python
exception are modelled as `Except PyError _` values.  Python's dynamic
numeric typing, where it matters (the duration formatter rejects floats
at the `d` format code), is modelled by the sum type `PyNum`.
-/

namespace Instrumentino

/-- The Python exceptions that the translated code can raise. -/
inductive PyError where
  | valueError
  | zeroDivisionError
  | attributeError
  | indexError
deriving DecidableEq, Repr

/-- A Python number: either an `int` or a `float` (floats as rationals). -/
inductive PyNum where
  | int (n : ℤ)
  | float (q : ℚ)
deriving DecidableEq, Repr

/-- Python `int(q)` applied to a number: truncation toward zero. -/
def pyInt (q : ℚ) : ℤ := if 0 ≤ q then ⌊q⌋ else ⌈q⌉

/-- Python sequence indexing `l[i]`: nonnegative indices are direct,
negative indices count from the end, anything else raises `IndexError`
(modelled as `none`). -/
def pyGetItem {α : Type} (l : List α) (i : ℤ) : Option α :=
  if 0 ≤ i then l.get? i.toNat
  else if (-i).toNat ≤ l.length then l.get? (l.length - (-i).toNat)
  else none

/-- The split point of a Python slice bound `i` on a sequence of length
`len`: a nonnegative bound is used as is (`take`/`drop` clamp it), a
negative bound counts from the end and clamps at 0. -/
def pySliceIdx (len : ℕ) (i : ℤ) : ℕ :=
  if 0 ≤ i then i.toNat else len - (-i).toNat

/-- Python slice `l[:i]`. -/
def pySliceTo {α : Type} (l : List α) (i : ℤ) : List α :=
  l.take (pySliceIdx l.length i)

/-- Python slice `l[i:]`. -/
def pySliceFrom {α : Type} (l : List α) (i : ℤ) : List α :=
  l.drop (pySliceIdx l.length i)

/-- Python `list.index(v)`: the index of the first occurrence of `v`,
`none` when `v` is absent (Python raises `ValueError` there). -/
def pyListIndex {α : Type} [DecidableEq α] (v : α) : List α → Option ℕ
  | [] => none
  | a :: rest => if a = v then some 0 else (pyListIndex v rest).map (· + 1)

/-- Python `str.strip()` whitespace characters (space, tab, newline,
carriage return, vertical tab, form feed). -/
def isPySpace (c : Char) : Bool :=
  c = ' ' ∨ c = '\t' ∨ c = '\n' ∨ c = '\r' ∨ c = Char.ofNat 11 ∨ c = Char.ofNat 12

/-- Python `str.strip()`: drop whitespace from both ends. -/
def stripPySpaces (l : List Char) : List Char :=
  ((l.dropWhile isPySpace).reverse.dropWhile isPySpace).reverse

/-- The natural number denoted by a list of decimal digit characters. -/
def digitsToNat (l : List Char) : ℕ :=
  l.foldl (fun acc c => acc * 10 + (c.toNat - Char.toNat '0')) 0

/-- Python `int(s)` on a string: strip whitespace, optional sign, then a
non-empty run of decimal digits; anything else raises `ValueError`
(modelled as `none`). -/
def pyParseInt (l : List Char) : Option ℤ :=
  match stripPySpaces l with
  | '+' :: ds => if ds ≠ [] ∧ ds.all Char.isDigit then some (digitsToNat ds : ℤ) else none
  | '-' :: ds => if ds ≠ [] ∧ ds.all Char.isDigit then some (-(digitsToNat ds : ℤ)) else none
  | ds => if ds ≠ [] ∧ ds.all Char.isDigit then some (digitsToNat ds : ℤ) else none

/-- An optional leading sign, as a rational factor. -/
def pySignQ : List Char → ℚ × List Char
  | '+' :: r => (1, r)
  | '-' :: r => (-1, r)
  | r => (1, r)

/-- An optional leading sign, as an integer factor. -/
def pySignZ : List Char → ℤ × List Char
  | '+' :: r => (1, r)
  | '-' :: r => (-1, r)
  | r => (1, r)

/-- The exponent suffix of a Python float literal: empty means exponent
0, otherwise `e`/`E`, an optional sign and a non-empty run of digits
consuming the whole rest. -/
def pyParseExp : List Char → Option ℤ
  | [] => some 0
  | c :: r =>
    if c = 'e' ∨ c = 'E' then
      let sr := pySignZ r
      let ds := sr.2.takeWhile Char.isDigit
      let rest := sr.2.dropWhile Char.isDigit
      if ds.length = 0 ∨ rest ≠ [] then none else some (sr.1 * (digitsToNat ds : ℤ))
    else none

/-- Python `float(s)` on a string, restricted to finite decimal literals
(the rational model has no `inf`/`nan`): strip whitespace, optional
sign, digits with an optional decimal point (at least one digit
overall), and an optional exponent. Anything else raises `ValueError`
(modelled as `none`). -/
def pyParseFloat (l : List Char) : Option ℚ :=
  let sr := pySignQ (stripPySpaces l)
  let ip := sr.2.takeWhile Char.isDigit
  let r1 := sr.2.dropWhile Char.isDigit
  match r1 with
  | '.' :: r2 =>
    let fp := r2.takeWhile Char.isDigit
    let r3 := r2.dropWhile Char.isDigit
    if ip.length + fp.length = 0 then none
    else (pyParseExp r3).map (fun e =>
      sr.1 * ((digitsToNat ip : ℚ) + (digitsToNat fp : ℚ) / 10 ^ fp.length) * 10 ^ e)
  | r2 =>
    if ip.length = 0 then none
    else (pyParseExp r2).map (fun e => sr.1 * (digitsToNat ip : ℚ) * 10 ^ e)

namespace AnalogVariableDurationInSeconds

/-- The regex `re.compile('(..):(..):(.*)')` applied with `.match`: each
`.` matches any character except a newline, so a match needs at least 6
characters with `:` at positions 2 and 5 and no newline at positions
0, 1, 3, 4; group 3 is the rest up to (not including) any newline.
Returns the three groups, or `none` when the text does not match
(`match.group(...)` on `None` then raises `AttributeError`). -/
def durationMatch (text : List Char) : Option (List Char × List Char × List Char) :=
  match text with
  | a :: b :: c :: d :: e :: f :: rest =>
    if a ≠ '\n' ∧ b ≠ '\n' ∧ c = ':' ∧ d ≠ '\n' ∧ e ≠ '\n' ∧ f = ':' then
      some ([a, b], [d, e], rest.takeWhile (fun ch => ch ≠ '\n'))
    else none
  | _ => none

/-- `AnalogVariableDurationInSeconds.text_to_value`: match the pattern,
`int` the first two groups, `float` the third, and return
`h*60*60 + m*60 + s`. -/
def text_to_value (text : List Char) : Except PyError ℚ :=
  match durationMatch text with
  | none => .error .attributeError
  | some (g1, g2, g3) =>
    match pyParseInt g1 with
    | none => .error .valueError
    | some h =>
      match pyParseInt g2 with
      | none => .error .valueError
      | some m =>
        match pyParseFloat g3 with
        | none => .error .valueError
        | some s => .ok ((h : ℚ) * 60 * 60 + (m : ℚ) * 60 + s)

/-- Python `'{:02d}'.format(n)` for an int `n`: decimal digits
zero-padded on the left to width 2. -/
def pyFormat02d (n : ℤ) : String :=
  if 0 ≤ n ∧ n < 10 then "0" ++ toString n else toString n

/-- Python `'{:06.3f}'.format(n)` for an int `n`: `n.000` zero-padded on
the left to width 6 (padding only triggers for `0 ≤ n ≤ 9`). -/
def pyFormat06_3f (n : ℤ) : String :=
  if 0 ≤ n ∧ n < 10 then "0" ++ toString n ++ ".000" else toString n ++ ".000"

/-- `AnalogVariableDurationInSeconds.value_to_text`:
`m, s = divmod(value, 60); h, m = divmod(m, 60)` then
`'{:02d}:{:02d}:{:06.3f}'.format(h, m, s)`. Python `divmod` on ints is
floor division and modulo (`Int.fdiv`/`Int.fmod`). On a float value the
`divmod` chain yields floats and the `d` format code then raises
`ValueError` (`Unknown format code 'd' for object of type 'float'`). -/
def value_to_text : PyNum → Except PyError String
  | .int v =>
    .ok (pyFormat02d ((v.fdiv 60).fdiv 60) ++ ":" ++
      pyFormat02d ((v.fdiv 60).fmod 60) ++ ":" ++ pyFormat06_3f (v.fmod 60))
  | .float _ => .error .valueError

end AnalogVariableDurationInSeconds

namespace AnalogVariableUnipolar

/-- `AnalogVariableUnipolar.percentage_to_value`:
`self.lower_limit + percentage / 100 * (self.upper_limit - self.lower_limit)`. -/
def percentage_to_value (lower_limit upper_limit percentage : ℚ) : ℚ :=
  lower_limit + percentage / 100 * (upper_limit - lower_limit)

/-- `AnalogVariableUnipolar.value_to_percentage`:
`(value - self.lower_limit) / (self.upper_limit - self.lower_limit) * 100`.
True division by zero raises `ZeroDivisionError` in Python. -/
def value_to_percentage (lower_limit upper_limit value : ℚ) : Except PyError ℚ :=
  if upper_limit - lower_limit = 0 then .error .zeroDivisionError
  else .ok ((value - lower_limit) / (upper_limit - lower_limit) * 100)

/-- The range check in `AnalogVariableUnipolar.__init__`:
`if self.upper_limit * self.lower_limit < 0: raise ValueError(...)`.
Returns `true` exactly when construction raises. -/
def init_range_check_raises (lower_limit upper_limit : ℚ) : Bool :=
  upper_limit * lower_limit < 0

end AnalogVariableUnipolar

namespace DigitalVariable

/-- `DigitalVariable.percentage_to_value`:
`index = int(percentage / 100 * (len(self.options) - 1)); return self.options[index]`. -/
def percentage_to_value {α : Type} (options : List α) (percentage : ℚ) :
    Except PyError α :=
  let index := pyInt (percentage / 100 * ((options.length : ℚ) - 1))
  match pyGetItem options index with
  | some v => .ok v
  | none => .error .indexError

/-- `DigitalVariable.value_to_percentage`:
`self.options.index(value) / (len(self.options) - 1) * 100`.
`list.index` raises `ValueError` when the value is absent; the division
raises `ZeroDivisionError` when `len(options) - 1 == 0`. -/
def value_to_percentage {α : Type} [DecidableEq α] (options : List α) (value : α) :
    Except PyError ℚ :=
  match pyListIndex value options with
  | none => .error .valueError
  | some i =>
    if (options.length : ℤ) - 1 = 0 then .error .zeroDivisionError
    else .ok ((i : ℚ) / ((options.length : ℚ) - 1) * 100)

end DigitalVariable

/-- Python `re.sub(re.compile('[^0-9]'), '', s)`: delete every character
that is not a decimal digit. -/
def stripNonDigits (l : List Char) : List Char :=
  l.filter Char.isDigit

/-- Python `s.split(sep, 1)`: the part before the first occurrence of
`sep` and, when `sep` occurs, the rest after it. -/
def pySplitOnce (sep : Char) : List Char → List Char × Option (List Char)
  | [] => ([], none)
  | a :: rest =>
    if a = sep then ([], some rest)
    else
      let r := pySplitOnce sep rest
      (a :: r.1, r.2)

namespace FloatInput

/-- The filtering step of `FloatInput.insert_text`: when the current text
already holds a `'.'`, strip everything but digits from the substring;
otherwise split the substring at its first `'.'` (if any), strip each
part to digits, and rejoin with a single `'.'`. -/
def insert_filter (text substring : List Char) : List Char :=
  if '.' ∈ text then stripNonDigits substring
  else
    match pySplitOnce '.' substring with
    | (a, none) => stripNonDigits a
    | (a, some b) => stripNonDigits a ++ '.' :: stripNonDigits b

/-- `FloatInput.insert_text`: the filtered substring is forwarded to the
underlying `TextInput`, which inserts it at the cursor position. -/
def insert_text (text : List Char) (cursor : ℕ) (substring : List Char) : List Char :=
  text.take cursor ++ insert_filter text substring ++ text.drop cursor

/-- The `FloatInput` text invariant: only digits and at most one decimal
point. -/
def textOK (l : List Char) : Prop :=
  (∀ c ∈ l, c.isDigit = true ∨ c = '.') ∧ l.count '.' ≤ 1

instance textOK_decidable (l : List Char) : Decidable (textOK l) := by
  unfold textOK
  infer_instance

end FloatInput

namespace DurationInput

/-- `DurationInput.pattern`: everything but digits, and the stripping
`re.sub(pattern, '', s)` is `stripNonDigits`. -/
def total_seconds_digits : ℕ := 2 + 2 + 2 + 3

/-- The positions of the separators `':'`, `':'`, `'.'` inside the
formatted text `'00:00:00.000'`. -/
def separators_positions : List ℤ := [2, 5, 8]

/-- The loop of `cursor_advancement_in_real_text`: for each added digit,
skip over a separator and advance. -/
def cursor_advancement_loop : ℕ → ℤ → ℤ
  | 0, cursor => cursor
  | n + 1, cursor =>
    cursor_advancement_loop n
      ((if cursor ∈ separators_positions then cursor + 1 else cursor) + 1)

/-- `DurationInput.cursor_advancement_in_real_text`: advance the cursor
over `digits_added` digits, skipping separators, then clamp to
`len(self.text) - 1`. -/
def cursor_advancement_in_real_text (textLen : ℕ) (cursor : ℤ) (digits_added : ℕ) : ℤ :=
  let c := cursor_advancement_loop digits_added cursor
  let c := if c ∈ separators_positions then c + 1 else c
  min c ((textLen : ℤ) - 1)

/-- Python `re.findall('..', s)`: scan left to right, taking
non-overlapping two-character matches; `.` does not match a newline, so
a newline makes the scan advance by one character. -/
def findallPairs : List Char → List (List Char)
  | a :: b :: rest =>
    if ¬ (a = '\n') ∧ ¬ (b = '\n') then [a, b] :: findallPairs rest
    else findallPairs (b :: rest)
  | _ => []
termination_by l => l.length

/-- Python `sep.join(parts)` on strings-as-char-lists. -/
def pyJoin (sep : List Char) : List (List Char) → List Char
  | [] => []
  | [x] => x
  | x :: xs => x ++ sep ++ pyJoin sep xs

/-- `DurationInput.insert_text` acting on the state
`(text, cursor column, last_text)`: if some text was deleted (length
mismatch), restore `last_text`; otherwise strip the substring to digits,
overwrite the digits of the text from the (separator-adjusted) cursor
on, truncate to 9 digits, reformat as `dd:dd:dd.ddd`, advance the
cursor, and remember the new text in `last_text`. Returns the new
`(text, cursor column, last_text)`. -/
def insert_text (text last_text : List Char) (cursor_col : ℤ) (substring : List Char) :
    List Char × ℤ × List Char :=
  if text.length ≠ last_text.length then
    (last_text, cursor_col, last_text)
  else
    let stripped_substring := stripNonDigits substring
    let cc := cursor_advancement_in_real_text text.length cursor_col 0
    let new_stripped_1 :=
      stripNonDigits (pySliceTo text cc) ++ stripped_substring ++
        (stripNonDigits (pySliceFrom text cc)).drop stripped_substring.length
    let new_stripped := new_stripped_1.take total_seconds_digits
    let milliseconds := pySliceFrom new_stripped (-3)
    let head := pySliceTo new_stripped (-3)
    let new_formatted_1 := pyJoin [':'] (findallPairs head)
    let new_formatted :=
      if milliseconds.length ≠ 0 then new_formatted_1 ++ '.' :: milliseconds
      else new_formatted_1
    let new_cc :=
      cursor_advancement_in_real_text new_formatted.length cc stripped_substring.length
    (new_formatted, new_cc, new_formatted)

/-- The fixed 12-character template `dd:dd:dd.ddd`: nine digits with
`':'` at positions 2 and 5 and `'.'` at position 8. -/
def matchesDurationTemplate (l : List Char) : Bool :=
  match l with
  | [a, b, c, d, e, f, g, h, i, j, k, m] =>
    a.isDigit && b.isDigit && c == ':' && d.isDigit && e.isDigit && f == ':' &&
      g.isDigit && h.isDigit && i == '.' && j.isDigit && k.isDigit && m.isDigit
  | _ => false

end DurationInput

/-- C1: `AnalogVariableUnipolar.percentage_to_value` computes
`lower_limit + p/100 * (upper_limit - lower_limit)`, and for
`0 ≤ p ≤ 100` with `lower_limit ≤ upper_limit` the result lies in
`[lower_limit, upper_limit]`. -/
theorem C1_analog_percentage_to_value_range_bound
    (lower_limit upper_limit p : ℚ)
    (hp0 : 0 ≤ p) (hp1 : p ≤ 100) (hle : lower_limit ≤ upper_limit) :
    AnalogVariableUnipolar.percentage_to_value lower_limit upper_limit p =
      lower_limit + p / 100 * (upper_limit - lower_limit) ∧
    lower_limit ≤ AnalogVariableUnipolar.percentage_to_value lower_limit upper_limit p ∧
    AnalogVariableUnipolar.percentage_to_value lower_limit upper_limit p ≤ upper_limit := by
  refine ⟨rfl, ?_, ?_⟩
  · have ht : 0 ≤ p / 100 := by positivity
    have : 0 ≤ p / 100 * (upper_limit - lower_limit) :=
      mul_nonneg ht (by linarith)
    unfold AnalogVariableUnipolar.percentage_to_value
    linarith
  · have ht : p / 100 ≤ 1 := by
      rw [div_le_one (by norm_num : (0:ℚ) < 100)]
      exact hp1
    have := mul_le_of_le_one_left (sub_nonneg.mpr hle) ht
    unfold AnalogVariableUnipolar.percentage_to_value
    linarith

/-- C1 witness: at `lower_limit = 2`, `upper_limit = 10`, `p = 25` the
value is `4` and the bounds hold. -/
theorem C1_analog_percentage_to_value_range_bound_witness :
    AnalogVariableUnipolar.percentage_to_value 2 10 25 =
      2 + 25 / 100 * (10 - 2) ∧
    (2:ℚ) ≤ AnalogVariableUnipolar.percentage_to_value 2 10 25 ∧
    AnalogVariableUnipolar.percentage_to_value 2 10 25 ≤ 10 :=
  C1_analog_percentage_to_value_range_bound 2 10 25 (by norm_num) (by norm_num)
    (by norm_num)

/-- C4: the `AnalogVariableUnipolar` construction-time range check raises
`ValueError` exactly when `upper_limit * lower_limit < 0`, i.e. exactly
when the two limits have strictly opposite signs; it does not raise when
the product is nonnegative. -/
theorem C4_analog_unipolar_range_check
    (lower_limit upper_limit : ℚ) :
    (AnalogVariableUnipolar.init_range_check_raises lower_limit upper_limit = true ↔
      (0 < upper_limit ∧ lower_limit < 0) ∨ (upper_limit < 0 ∧ 0 < lower_limit)) ∧
    (AnalogVariableUnipolar.init_range_check_raises lower_limit upper_limit = false ↔
      0 ≤ upper_limit * lower_limit) := by
  constructor
  · simp only [AnalogVariableUnipolar.init_range_check_raises, decide_eq_true_eq]
    exact mul_neg_iff
  · simp only [AnalogVariableUnipolar.init_range_check_raises,
      decide_eq_false_iff_not, not_lt]

/-- Auxiliary: `pyListIndex` finds an in-bounds index for every member. -/
theorem pyListIndex_of_mem {α : Type} [DecidableEq α] {v : α} {l : List α}
    (h : v ∈ l) : ∃ i, pyListIndex v l = some i ∧ i < l.length := by
  induction l with
  | nil => cases h
  | cons a rest ih =>
    by_cases hav : a = v
    · exact ⟨0, by simp [pyListIndex, hav], by simp⟩
    · have hv : v ∈ rest := by
        cases h with
        | head => exact absurd rfl hav
        | tail _ h => exact h
      obtain ⟨i, hi, hlt⟩ := ih hv
      exact ⟨i + 1, by simp [pyListIndex, hav, hi], by simpa using Nat.succ_lt_succ hlt⟩

/-- Auxiliary: `pyListIndex` fails exactly on non-members. -/
theorem pyListIndex_of_not_mem {α : Type} [DecidableEq α] {v : α} {l : List α}
    (h : v ∉ l) : pyListIndex v l = none := by
  induction l with
  | nil => rfl
  | cons a rest ih =>
    have hav : ¬ a = v := fun hv => h (hv ▸ List.mem_cons_self a rest)
    have hv : v ∉ rest := fun hv => h (List.mem_cons_of_mem a hv)
    simp [pyListIndex, hav, ih hv]

/-- C2: for a non-empty options list and `0 ≤ p ≤ 100`,
`DigitalVariable.percentage_to_value` computes the index
`int(p/100 * (len(options)-1))`, that index lies in
`[0, len(options)-1]`, and the list lookup succeeds, returning
`options[index]`. -/
theorem C2_digital_percentage_to_value_index_in_bounds
    {α : Type} (options : List α) (p : ℚ)
    (hne : options ≠ []) (hp0 : 0 ≤ p) (hp1 : p ≤ 100) :
    ∃ hlt : (pyInt (p / 100 * ((options.length : ℚ) - 1))).toNat < options.length,
      0 ≤ pyInt (p / 100 * ((options.length : ℚ) - 1)) ∧
      pyInt (p / 100 * ((options.length : ℚ) - 1)) ≤ (options.length : ℤ) - 1 ∧
      DigitalVariable.percentage_to_value options p =
        .ok (options.get ⟨(pyInt (p / 100 * ((options.length : ℚ) - 1))).toNat, hlt⟩) := by
  have hn : 1 ≤ options.length := List.length_pos.mpr hne
  have hn' : (1:ℚ) ≤ (options.length : ℚ) := by exact_mod_cast hn
  set x : ℚ := p / 100 * ((options.length : ℚ) - 1) with hx
  have hx0 : 0 ≤ x := mul_nonneg (by positivity) (by linarith)
  have hx1 : x ≤ (options.length : ℚ) - 1 := by
    have ht : p / 100 ≤ 1 := by
      rw [div_le_one (by norm_num : (0:ℚ) < 100)]
      exact hp1
    calc x ≤ 1 * ((options.length : ℚ) - 1) :=
          mul_le_mul_of_nonneg_right ht (by linarith)
      _ = (options.length : ℚ) - 1 := one_mul _
  have hpy : pyInt x = ⌊x⌋ := if_pos hx0
  have h0 : 0 ≤ pyInt x := hpy ▸ Int.floor_nonneg.mpr hx0
  have h1 : pyInt x ≤ (options.length : ℤ) - 1 := by
    rw [hpy]
    have : ((options.length : ℚ) - 1) = (((options.length : ℤ) - 1 : ℤ) : ℚ) := by
      push_cast
      ring
    calc ⌊x⌋ ≤ ⌊(((options.length : ℤ) - 1 : ℤ) : ℚ)⌋ := Int.floor_mono (this ▸ hx1)
      _ = (options.length : ℤ) - 1 := Int.floor_intCast _
  have hlt : (pyInt x).toNat < options.length := by omega
  refine ⟨hlt, h0, h1, ?_⟩
  have hget : pyGetItem options (pyInt x) =
      some (options.get ⟨(pyInt x).toNat, hlt⟩) := by
    rw [pyGetItem, if_pos h0]
    exact List.get?_eq_get hlt
  simp only [DigitalVariable.percentage_to_value, ← hx, hget]

/-- C2 witness: for `options = [10, 20, 30] : List ℚ` and `p = 50` the
index is `1` and the lookup returns `20`. -/
theorem C2_digital_percentage_to_value_index_in_bounds_witness :
    ∃ hlt : (pyInt (50 / 100 * ((([(10:ℚ), 20, 30]).length : ℚ) - 1))).toNat <
        [(10:ℚ), 20, 30].length,
      0 ≤ pyInt (50 / 100 * ((([(10:ℚ), 20, 30]).length : ℚ) - 1)) ∧
      pyInt (50 / 100 * ((([(10:ℚ), 20, 30]).length : ℚ) - 1)) ≤
        (([(10:ℚ), 20, 30]).length : ℤ) - 1 ∧
      DigitalVariable.percentage_to_value [(10:ℚ), 20, 30] 50 =
        .ok ([(10:ℚ), 20, 30].get
          ⟨(pyInt (50 / 100 * ((([(10:ℚ), 20, 30]).length : ℚ) - 1))).toNat, hlt⟩) :=
  C2_digital_percentage_to_value_index_in_bounds [(10:ℚ), 20, 30] 50
    (by simp) (by norm_num) (by norm_num)

/-- C3: `value_to_percentage` lands in the normalized interval `[0, 100]`
on every in-domain value: for `AnalogVariableUnipolar` whenever
`lower_limit ≤ v ≤ upper_limit` with `lower_limit < upper_limit`, and for
`DigitalVariable` whenever `v` is a member of an options list with at
least two options. -/
theorem C3_value_to_percentage_normalized :
    (∀ lower_limit upper_limit v : ℚ,
      lower_limit ≤ v → v ≤ upper_limit → lower_limit < upper_limit →
      ∃ p, AnalogVariableUnipolar.value_to_percentage lower_limit upper_limit v =
          .ok p ∧ 0 ≤ p ∧ p ≤ 100) ∧
    (∀ (α : Type) [DecidableEq α] (options : List α) (v : α),
      v ∈ options → 2 ≤ options.length →
      ∃ p, DigitalVariable.value_to_percentage options v = .ok p ∧
        0 ≤ p ∧ p ≤ 100) := by
  constructor
  · intro l u v hlv hvu hlu
    have hd : 0 < u - l := by linarith
    refine ⟨(v - l) / (u - l) * 100,
      by rw [AnalogVariableUnipolar.value_to_percentage, if_neg (by linarith)], ?_, ?_⟩
    · have := div_nonneg (by linarith : (0:ℚ) ≤ v - l) (le_of_lt hd)
      linarith
    · have hq : (v - l) / (u - l) ≤ 1 := by
        rw [div_le_one hd]
        linarith
      linarith
  · intro α _ options v hv hlen
    obtain ⟨i, hi, hilt⟩ := pyListIndex_of_mem hv
    have hne : ¬ ((options.length : ℤ) - 1 = 0) := by omega
    have hd : (0:ℚ) < (options.length : ℚ) - 1 := by
      have : (2:ℚ) ≤ (options.length : ℚ) := by exact_mod_cast hlen
      linarith
    refine ⟨(i : ℚ) / ((options.length : ℚ) - 1) * 100, ?_, ?_, ?_⟩
    · rw [DigitalVariable.value_to_percentage, hi]
      simp only [hne, if_false]
    · have := div_nonneg (by positivity : (0:ℚ) ≤ (i:ℚ)) (le_of_lt hd)
      linarith
    · have hile : (i : ℚ) ≤ (options.length : ℚ) - 1 := by
        have : (i : ℚ) + 1 ≤ (options.length : ℚ) := by exact_mod_cast hilt
        linarith
      have hq : (i : ℚ) / ((options.length : ℚ) - 1) ≤ 1 := by
        rw [div_le_one hd]
        exact hile
      linarith

/-- C3 witness: analog at range `[0, 10]` with `v = 5`, digital at
options `[10, 20] : List ℚ` with `v = 20`. -/
theorem C3_value_to_percentage_normalized_witness :
    (∃ p, AnalogVariableUnipolar.value_to_percentage 0 10 5 = .ok p ∧
      0 ≤ p ∧ p ≤ 100) ∧
    (∃ p, DigitalVariable.value_to_percentage [(10:ℚ), 20] 20 = .ok p ∧
      0 ≤ p ∧ p ≤ 100) :=
  ⟨C3_value_to_percentage_normalized.1 0 10 5 (by norm_num) (by norm_num) (by norm_num),
   C3_value_to_percentage_normalized.2 ℚ [(10:ℚ), 20] 20 (by simp) (by simp)⟩

/-- C10 counterexample: for the one-element options list `[0] : List ℚ`
and the value `1`, which is not in the list, `value_to_percentage` raises
`ValueError` (from `list.index`), not `ZeroDivisionError` as the claim
states for every value. -/
theorem C10_counterexample_value_error_first :
    DigitalVariable.value_to_percentage [(0:ℚ)] 1 = .error .valueError ∧
    DigitalVariable.value_to_percentage [(0:ℚ)] 1 ≠ .error .zeroDivisionError := by
  constructor
  · rfl
  · intro h
    exact absurd (Except.error.inj h) (by decide)

/-- C10 amended: with a one-element options list, `value_to_percentage`
raises `ZeroDivisionError` for the value that is a member of the list
(division by `len(options) - 1 = 0`) and `ValueError` for every other
value (`list.index` fails first); for `AnalogVariableUnipolar` with
`upper_limit = lower_limit` it raises `ZeroDivisionError` for every
value. -/
theorem C10_divide_by_zero_amended :
    (∀ (α : Type) [DecidableEq α] (options : List α) (v : α),
      options.length = 1 → v ∈ options →
      DigitalVariable.value_to_percentage options v = .error .zeroDivisionError) ∧
    (∀ (α : Type) [DecidableEq α] (options : List α) (v : α),
      options.length = 1 → v ∉ options →
      DigitalVariable.value_to_percentage options v = .error .valueError) ∧
    (∀ limit v : ℚ,
      AnalogVariableUnipolar.value_to_percentage limit limit v =
        .error .zeroDivisionError) := by
  refine ⟨?_, ?_, ?_⟩
  · intro α _ options v hlen hv
    obtain ⟨i, hi, _⟩ := pyListIndex_of_mem hv
    rw [DigitalVariable.value_to_percentage, hi]
    simp [hlen]
  · intro α _ options v hlen hv
    rw [DigitalVariable.value_to_percentage, pyListIndex_of_not_mem hv]
  · intro limit v
    rw [AnalogVariableUnipolar.value_to_percentage, if_pos (sub_self limit)]

/-- C10 amended witness: concrete instances of all three parts, with
options `[7] : List ℚ`. -/
theorem C10_divide_by_zero_amended_witness :
    DigitalVariable.value_to_percentage [(7:ℚ)] 7 = .error .zeroDivisionError ∧
    DigitalVariable.value_to_percentage [(7:ℚ)] 8 = .error .valueError ∧
    AnalogVariableUnipolar.value_to_percentage 3 3 5 = .error .zeroDivisionError :=
  ⟨C10_divide_by_zero_amended.1 ℚ [(7:ℚ)] 7 (by simp) (by simp),
   C10_divide_by_zero_amended.2.1 ℚ [(7:ℚ)] 8 (by simp) (by norm_num),
   C10_divide_by_zero_amended.2.2 3 5⟩

/-- C5: on text that does not match the duration pattern
`(..):(..):(.*)`, such as the separator-less `"abc"`,
`AnalogVariableDurationInSeconds.text_to_value` raises instead of
returning a value (`match` is `None`, so `.group(1)` raises
`AttributeError`). -/
theorem C5_duration_text_to_value_unguarded :
    AnalogVariableDurationInSeconds.durationMatch ['a', 'b', 'c'] = none ∧
    AnalogVariableDurationInSeconds.text_to_value ['a', 'b', 'c'] =
      .error .attributeError := by
  constructor
  · rfl
  · rfl

/-- C6: whenever the text matches the pattern with groups `g1`, `g2`,
`g3`, the first two parsing as ints `hh` and `mm` and the third as a
float `ss`, `text_to_value` returns `hh*3600 + mm*60 + ss` seconds. -/
theorem C6_duration_text_to_value_seconds
    (text g1 g2 g3 : List Char) (hh mm : ℤ) (ss : ℚ)
    (hmatch : AnalogVariableDurationInSeconds.durationMatch text = some (g1, g2, g3))
    (h1 : pyParseInt g1 = some hh)
    (h2 : pyParseInt g2 = some mm)
    (h3 : pyParseFloat g3 = some ss) :
    AnalogVariableDurationInSeconds.text_to_value text =
      .ok ((hh : ℚ) * 3600 + (mm : ℚ) * 60 + ss) := by
  simp only [AnalogVariableDurationInSeconds.text_to_value, hmatch, h1, h2, h3]
  have : (hh : ℚ) * 60 * 60 = (hh : ℚ) * 3600 := by ring
  rw [this]

/-- C6 witness: the text `"01:02:03.5"` parses to `1*3600 + 2*60 + 7/2`
seconds. -/
theorem C6_duration_text_to_value_seconds_witness :
    AnalogVariableDurationInSeconds.text_to_value
        ['0', '1', ':', '0', '2', ':', '0', '3', '.', '5'] =
      .ok (((1 : ℤ) : ℚ) * 3600 + ((2 : ℤ) : ℚ) * 60 + (7 / 2 : ℚ)) :=
  C6_duration_text_to_value_seconds
    ['0', '1', ':', '0', '2', ':', '0', '3', '.', '5']
    ['0', '1'] ['0', '2'] ['0', '3', '.', '5'] 1 2 (7 / 2)
    (by decide) (by decide) (by decide)
    (by
      simp [pyParseFloat, pyParseExp, pySignQ, stripPySpaces, isPySpace, digitsToNat]
      norm_num)

/-- C7 counterexample: at the float value `1/2` (half a second — the
very type `text_to_value` produces), `value_to_text` raises `ValueError`
from the `d` format code instead of returning a formatted string, so
formatting does not succeed for every duration value. -/
theorem C7_counterexample_float_value_raises :
    AnalogVariableDurationInSeconds.value_to_text (.float (1 / 2)) =
      .error .valueError := rfl

/-- C7 amended: for every int value `v`, `value_to_text` returns
`'{:02d}:{:02d}:{:06.3f}'.format(h, m, s)` with `s = v mod 60`,
`m = (v div 60) mod 60`, `h = v div 3600` (Python floor division and
modulo); float values instead raise `ValueError` at the `d` format
code. -/
theorem C7_duration_value_to_text_amended (v : ℤ) :
    AnalogVariableDurationInSeconds.value_to_text (.int v) =
      .ok (AnalogVariableDurationInSeconds.pyFormat02d (v / 3600) ++ ":" ++
        AnalogVariableDurationInSeconds.pyFormat02d ((v / 60) % 60) ++ ":" ++
        AnalogVariableDurationInSeconds.pyFormat06_3f (v % 60)) := by
  rw [AnalogVariableDurationInSeconds.value_to_text]
  rw [Int.fdiv_eq_ediv _ (by norm_num : (0:ℤ) ≤ 60),
    Int.fdiv_eq_ediv _ (by norm_num : (0:ℤ) ≤ 60),
    Int.fmod_eq_emod _ (by norm_num : (0:ℤ) ≤ 60),
    Int.fmod_eq_emod _ (by norm_num : (0:ℤ) ≤ 60)]
  have : v / 60 / 60 = v / 3600 := by omega
  rw [this]

/-- Auxiliary: every character surviving `stripNonDigits` is a digit. -/
theorem stripNonDigits_mem {c : Char} {l : List Char} (h : c ∈ stripNonDigits l) :
    c.isDigit = true :=
  (List.mem_filter.mp h).2

/-- Auxiliary: `stripNonDigits` never keeps a decimal point. -/
theorem stripNonDigits_not_dot (l : List Char) : '.' ∉ stripNonDigits l := by
  intro h
  exact absurd (stripNonDigits_mem h) (by decide)

/-- Auxiliary: the stripped list holds no decimal point at all. -/
theorem stripNonDigits_count_dot (l : List Char) : (stripNonDigits l).count '.' = 0 :=
  List.count_eq_zero.mpr (stripNonDigits_not_dot l)

/-- Auxiliary: characters of the filtered substring are digits or a
decimal point, and at most one decimal point survives. -/
theorem insert_filter_chars (text sub : List Char) :
    (∀ c ∈ FloatInput.insert_filter text sub, c.isDigit = true ∨ c = '.') ∧
    (FloatInput.insert_filter text sub).count '.' ≤ 1 := by
  rw [FloatInput.insert_filter]
  by_cases hdot : '.' ∈ text
  · rw [if_pos hdot]
    exact ⟨fun c hc => Or.inl (stripNonDigits_mem hc),
      le_of_eq_of_le (stripNonDigits_count_dot sub) (by norm_num)⟩
  · rw [if_neg hdot]
    rcases hsp : pySplitOnce '.' sub with ⟨a, ob⟩
    cases ob with
    | none =>
      exact ⟨fun c hc => Or.inl (stripNonDigits_mem hc),
        le_of_eq_of_le (stripNonDigits_count_dot a) (by norm_num)⟩
    | some b =>
      constructor
      · intro c hc
        rcases List.mem_append.mp hc with h1 | h2
        · exact Or.inl (stripNonDigits_mem h1)
        · rcases List.mem_cons.mp h2 with h2a | h3
          · exact Or.inr h2a
          · exact Or.inl (stripNonDigits_mem h3)
      · rw [List.count_append, List.count_cons_self,
          stripNonDigits_count_dot, stripNonDigits_count_dot]

/-- Auxiliary: when the text already holds a decimal point, the filtered
substring holds none. -/
theorem insert_filter_no_dot (text sub : List Char) (hdot : '.' ∈ text) :
    '.' ∉ FloatInput.insert_filter text sub := by
  rw [FloatInput.insert_filter, if_pos hdot]
  exact stripNonDigits_not_dot sub

/-- Auxiliary: `FloatInput.insert_text` preserves the digits-plus-one-dot
invariant. -/
theorem insert_text_preserves_textOK (text : List Char) (cursor : ℕ) (sub : List Char)
    (h : FloatInput.textOK text) :
    FloatInput.textOK (FloatInput.insert_text text cursor sub) := by
  obtain ⟨hmem, hcount⟩ := h
  constructor
  · intro c hc
    rw [FloatInput.insert_text] at hc
    rcases List.mem_append.mp hc with hc1 | hc2
    · rcases List.mem_append.mp hc1 with hc3 | hc4
      · exact hmem c (List.take_subset _ _ hc3)
      · exact (insert_filter_chars text sub).1 c hc4
    · exact hmem c (List.drop_subset _ _ hc2)
  · rw [FloatInput.insert_text, List.count_append, List.count_append]
    have hsplit : (text.take cursor).count '.' + (text.drop cursor).count '.' =
        text.count '.' := by
      rw [← List.count_append, List.take_append_drop]
    by_cases hdot : '.' ∈ text
    · have hf : (FloatInput.insert_filter text sub).count '.' = 0 :=
        List.count_eq_zero.mpr (insert_filter_no_dot text sub hdot)
      omega
    · have ht : text.count '.' = 0 := List.count_eq_zero.mpr hdot
      have hf := (insert_filter_chars text sub).2
      omega

/-- C8: `FloatInput.insert_text` forwards a filtered string made of
digits and at most one `'.'`, with no `'.'` at all when the current text
already holds one; consequently the invariant
"only digits and at most one decimal point" is preserved by every
insertion. -/
theorem C8_float_input_single_decimal_point :
    (∀ text sub : List Char,
      (∀ c ∈ FloatInput.insert_filter text sub, c.isDigit = true ∨ c = '.') ∧
      (FloatInput.insert_filter text sub).count '.' ≤ 1) ∧
    (∀ text sub : List Char, '.' ∈ text → '.' ∉ FloatInput.insert_filter text sub) ∧
    (∀ (text : List Char) (cursor : ℕ) (sub : List Char),
      FloatInput.textOK text → FloatInput.textOK (FloatInput.insert_text text cursor sub)) :=
  ⟨insert_filter_chars, insert_filter_no_dot, insert_text_preserves_textOK⟩

/-- C8 witness: inserting `"3.4"` into `"1.2"` at cursor 1 keeps the
invariant (the result is `"134.2"`). -/
theorem C8_float_input_single_decimal_point_witness :
    FloatInput.textOK (FloatInput.insert_text ['1', '.', '2'] 1 ['3', '.', '4']) ∧
    FloatInput.insert_text ['1', '.', '2'] 1 ['3', '.', '4'] = ['1', '3', '4', '.', '2'] :=
  ⟨C8_float_input_single_decimal_point.2.2 ['1', '.', '2'] 1 ['3', '.', '4'] (by decide),
   by decide⟩

/-- Auxiliary: a digit character is not a newline. -/
theorem digit_ne_newline {c : Char} (h : c.isDigit = true) : ¬ (c = '\n') := by
  intro hc
  subst hc
  exact absurd h (by decide)

/-- Auxiliary: a Python slice pair `l[:i]`, `l[i:]` reassembles `l`. -/
theorem pySlice_split {α : Type} (l : List α) (i : ℤ) :
    pySliceTo l i ++ pySliceFrom l i = l :=
  List.take_append_drop _ _

/-- Auxiliary: a text matching the duration template is a literal
12-element list with digits at the nine digit positions. -/
theorem template_elim (l : List Char)
    (h : DurationInput.matchesDurationTemplate l = true) :
    ∃ t0 t1 t3 t4 t6 t7 t9 t10 t11 : Char,
      l = [t0, t1, ':', t3, t4, ':', t6, t7, '.', t9, t10, t11] ∧
      t0.isDigit = true ∧ t1.isDigit = true ∧ t3.isDigit = true ∧ t4.isDigit = true ∧
      t6.isDigit = true ∧ t7.isDigit = true ∧ t9.isDigit = true ∧ t10.isDigit = true ∧
      t11.isDigit = true := by
  rcases l with _ | ⟨t0, _ | ⟨t1, _ | ⟨c2, _ | ⟨t3, _ | ⟨t4, _ | ⟨c5, _ | ⟨t6, _ | ⟨t7, _ |
    ⟨c8, _ | ⟨t9, _ | ⟨t10, _ | ⟨t11, _ | ⟨x, xs⟩⟩⟩⟩⟩⟩⟩⟩⟩⟩⟩⟩⟩
  all_goals simp only [DurationInput.matchesDurationTemplate, Bool.and_eq_true,
    beq_iff_eq, Bool.false_eq_true] at h
  obtain ⟨⟨⟨⟨⟨⟨⟨⟨⟨⟨⟨h0, h1⟩, hc2⟩, h3⟩, h4⟩, hc5⟩, h6⟩, h7⟩, hc8⟩, h9⟩, h10⟩, h11⟩ := h
  subst hc2
  subst hc5
  subst hc8
  exact ⟨t0, t1, t3, t4, t6, t7, t9, t10, t11, rfl,
    h0, h1, h3, h4, h6, h7, h9, h10, h11⟩

/-- Auxiliary: overwriting the digit tail at the cursor and truncating
to 9 keeps exactly 9 digit characters. -/
theorem overwrite_nine_digits (A ss B : List Char) (hAB : A.length + B.length = 9)
    (hA : ∀ c ∈ A, c.isDigit = true) (hss : ∀ c ∈ ss, c.isDigit = true)
    (hB : ∀ c ∈ B, c.isDigit = true) :
    ((A ++ ss ++ B.drop ss.length).take 9).length = 9 ∧
    (∀ c ∈ (A ++ ss ++ B.drop ss.length).take 9, c.isDigit = true) := by
  constructor
  · rw [List.length_take, List.length_append, List.length_append, List.length_drop]
    omega
  · intro c hc
    have hc' := List.take_subset _ _ hc
    rcases List.mem_append.mp hc' with hc1 | hc2
    · rcases List.mem_append.mp hc1 with hc3 | hc4
      · exact hA c hc3
      · exact hss c hc4
    · exact hB c (List.drop_subset _ _ hc2)

/-- Auxiliary: pairing up and rejoining a 9-digit run with `':'` and
appending `'.'` plus the last three digits lands back in the duration
template. -/
theorem nine_digit_format_matches (l : List Char) (h9 : l.length = 9)
    (hd : ∀ c ∈ l, c.isDigit = true) :
    DurationInput.matchesDurationTemplate
      (DurationInput.pyJoin [':'] (DurationInput.findallPairs (pySliceTo l (-3))) ++
        '.' :: pySliceFrom l (-3)) = true := by
  rcases l with _ | ⟨d0, _ | ⟨d1, _ | ⟨d2, _ | ⟨d3, _ | ⟨d4, _ | ⟨d5, _ | ⟨d6, _ | ⟨d7, _ |
    ⟨d8, _ | ⟨x, xs⟩⟩⟩⟩⟩⟩⟩⟩⟩⟩
  all_goals simp only [List.length_nil, List.length_cons] at h9
  all_goals try omega
  · have hd0 := hd d0 (by simp)
    have hd1 := hd d1 (by simp)
    have hd2 := hd d2 (by simp)
    have hd3 := hd d3 (by simp)
    have hd4 := hd d4 (by simp)
    have hd5 := hd d5 (by simp)
    have hd6 := hd d6 (by simp)
    have hd7 := hd d7 (by simp)
    have hd8 := hd d8 (by simp)
    have hTo : pySliceTo [d0, d1, d2, d3, d4, d5, d6, d7, d8] (-3) =
        [d0, d1, d2, d3, d4, d5] := rfl
    have hFrom : pySliceFrom [d0, d1, d2, d3, d4, d5, d6, d7, d8] (-3) =
        [d6, d7, d8] := rfl
    rw [hTo, hFrom]
    have hfp : DurationInput.findallPairs [d0, d1, d2, d3, d4, d5] =
        [[d0, d1], [d2, d3], [d4, d5]] := by
      rw [DurationInput.findallPairs, if_pos ⟨digit_ne_newline hd0, digit_ne_newline hd1⟩,
        DurationInput.findallPairs, if_pos ⟨digit_ne_newline hd2, digit_ne_newline hd3⟩,
        DurationInput.findallPairs, if_pos ⟨digit_ne_newline hd4, digit_ne_newline hd5⟩]
      simp [DurationInput.findallPairs]
    rw [hfp]
    simp [DurationInput.pyJoin, DurationInput.matchesDurationTemplate,
      hd0, hd1, hd2, hd3, hd4, hd5, hd6, hd7, hd8]

/-- Auxiliary: when `insert_text` runs with `last_text` equal to the
text and the text holds exactly 9 digit characters, it produces a text
in the duration template, for every cursor position and substring. -/
theorem duration_insert_text_formats (text : List Char) (cursor : ℤ) (sub : List Char)
    (h9 : (stripNonDigits text).length = 9) :
    DurationInput.matchesDurationTemplate
      (DurationInput.insert_text text text cursor sub).1 = true := by
  rw [DurationInput.insert_text, if_neg (by simp)]
  dsimp only
  rw [show DurationInput.total_seconds_digits = 9 from rfl]
  have hAB : (stripNonDigits (pySliceTo text
        (DurationInput.cursor_advancement_in_real_text text.length cursor 0))).length +
      (stripNonDigits (pySliceFrom text
        (DurationInput.cursor_advancement_in_real_text text.length cursor 0))).length =
      9 := by
    rw [stripNonDigits, stripNonDigits, ← List.length_append, ← List.filter_append,
      pySlice_split]
    exact h9
  obtain ⟨hlen, hdig⟩ := overwrite_nine_digits _ (stripNonDigits sub) _ hAB
    (fun c hc => stripNonDigits_mem hc) (fun c hc => stripNonDigits_mem hc)
    (fun c hc => stripNonDigits_mem hc)
  have hms : (pySliceFrom ((stripNonDigits (pySliceTo text
        (DurationInput.cursor_advancement_in_real_text text.length cursor 0)) ++
        stripNonDigits sub ++
        (stripNonDigits (pySliceFrom text
          (DurationInput.cursor_advancement_in_real_text text.length cursor 0))).drop
          (stripNonDigits sub).length).take 9) (-3)).length = 3 := by
    rw [pySliceFrom, List.length_drop, pySliceIdx, if_neg (by norm_num), hlen]
    decide
  rw [if_pos (by omega)]
  exact nine_digit_format_matches _ hlen hdig

/-- C9: whenever `DurationInput.insert_text` runs with `self.text` equal
to `self.last_text` and matching the fixed 12-character template
`dd:dd:dd.ddd`, then for every cursor position and inserted substring
the text after the call again matches that template. -/
theorem C9_duration_insert_text_template_invariant
    (text last_text : List Char) (cursor : ℤ) (sub : List Char)
    (heq : text = last_text)
    (htm : DurationInput.matchesDurationTemplate text = true) :
    DurationInput.matchesDurationTemplate
      (DurationInput.insert_text text last_text cursor sub).1 = true := by
  subst heq
  obtain ⟨t0, t1, t3, t4, t6, t7, t9, t10, t11, hl,
    h0, h1, h3, h4, h6, h7, h9a, h10, h11⟩ := template_elim text htm
  subst hl
  apply duration_insert_text_formats
  have hcolon : (':' : Char).isDigit = false := by decide
  have hpoint : ('.' : Char).isDigit = false := by decide
  simp [stripNonDigits, h0, h1, h3, h4, h6, h7, h9a, h10, h11, hcolon, hpoint]

/-- C9 witness: inserting `"5"` into `"00:00:00.000"` at cursor 0 keeps
the template (the result is `"50:00:00.000"`). -/
theorem C9_duration_insert_text_template_invariant_witness :
    DurationInput.matchesDurationTemplate
      (DurationInput.insert_text
        ['0', '0', ':', '0', '0', ':', '0', '0', '.', '0', '0', '0']
        ['0', '0', ':', '0', '0', ':', '0', '0', '.', '0', '0', '0'] 0 ['5']).1 = true :=
  C9_duration_insert_text_template_invariant
    ['0', '0', ':', '0', '0', ':', '0', '0', '.', '0', '0', '0']
    ['0', '0', ':', '0', '0', ':', '0', '0', '.', '0', '0', '0'] 0 ['5']
    rfl (by decide)

end Instrumentino
